import Mathlib

/-!
Verification of the audio-scheduler repository (UoC-Radio/audio-scheduler)
against its natural-language specification.

The development shallowly embeds the C sources:
pure control flow becomes Lean functions, stateful code becomes explicit
state passing, machine integers become `Nat`/`Int`, `time_t` instants
become seconds as `Nat`, and float arithmetic becomes `ℚ` with
transcendental values (`powf`) abstracted as parameters.

Each embedded definition carries a comment pointing at the C function and
lines it was translated from.
-/

namespace AudioSched

/-! ## utils.c -/

/-- Model of `utils_compare_time` (src/utils.c:414-435).  With `no_date=1`
both `struct tm` values get their date fields zeroed, so the comparison
reduces to comparing seconds-of-day; with `no_date=0` it compares full
timestamps.  Either way `mktime`/`difftime` yield the sign of `t1 - t0`.
We model an instant (or a second-of-day) as a `Nat` of seconds. -/
def utils_compare_time (t1 t0 : Nat) : Int :=
  if t0 < t1 then 1 else if t1 < t0 then -1 else 0

/-- Model of `utils_is_regular_file` (src/utils.c:366-382).  The C body
computes a local `ret` from `stat` and `S_ISREG` but the function body
ends in the literal `return 1;`.  `stat_ret` is the value returned by
`stat(2)` and `s_isreg` the result of the `S_ISREG` test. -/
def utils_is_regular_file (stat_ret : Int) (s_isreg : Bool) : Int :=
  let _ret : Int :=
    if ¬ s_isreg then 0
    else if stat_ret < 0 then 0
    else stat_ret
  1

/-- Model of `utils_is_readable_file` (src/utils.c:384-400): the regular
file check followed by `access(filepath, R_OK)`; `access_ret` models the
return value of `access(2)`. -/
def utils_is_readable_file (stat_ret : Int) (s_isreg : Bool) (access_ret : Int) : Int :=
  if utils_is_regular_file stat_ret s_isreg = 0 then 0
  else if access_ret < 0 then 0
  else 1

/-! ## scheduler.c: zone selection -/

/-- Downward scan of `sched_get_next` (src/scheduler.c:146-157): starting
at index `i` and walking to 0, return the first index whose zone start
time satisfies `utils_compare_time target start > 0` (that comparison is
made with `no_date=1`, i.e. over seconds-of-day), or `none` when the loop
falls off the low end (`i < 0` in C). -/
def sched_zone_scan (starts : List Nat) (target : Nat) : Nat → Option Nat
  | 0 => if 0 < utils_compare_time target (starts.getD 0 0) then some 0 else none
  | i + 1 =>
    if 0 < utils_compare_time target (starts.getD (i + 1) 0) then some (i + 1)
    else sched_zone_scan starts target i

/-- Zone selection of `sched_get_next` (src/scheduler.c:141-163): scan the
day's zones backwards from the last index; if no zone qualifies, fall back
to the first zone of the day.  `starts` lists the zones' start times (as
seconds-of-day, ascending per the config invariant), `target` is the
target second-of-day. -/
def sched_select_zone (starts : List Nat) (target : Nat) : Nat :=
  match sched_zone_scan starts target (starts.length - 1) with
  | some i => i
  | none => 0

/-- Modelled from the spec's words for claim C1 (not from the source):
"pick the latest zone whose start time is ≤ target-of-day, else the first
zone".  This is the inclusive-bound selection the spec describes; it is
compared against the source-derived `sched_select_zone`. -/
def spec_select_zone_incl (starts : List Nat) (target : Nat) : Nat :=
  match (List.range starts.length).filter (fun i => starts.getD i 0 ≤ target) with
  | [] => 0
  | l => l.foldl max 0

/-! ## scheduler.c: intermediate playlist bookkeeping -/

/-- The mutable bookkeeping of a `struct intermediate_playlist`
(src/scheduler.h): `sched_items_pending` is a C int (−1 means "armed,
not firing"), `last_scheduled` a `time_t` modelled as seconds. -/
structure IplsState where
  sched_items_pending : Int
  last_scheduled : Nat
  deriving Repr, DecidableEq

/-- Model of `sched_is_ipls_ready` (src/scheduler.c:25-47): the C code
adds `sched_interval_mins` to the broken-down minutes of
`last_scheduled` (normalised by `mktime`), i.e. compares the target
against `last_scheduled + interval*60` seconds, and reports ready only
when `utils_compare_time` is strictly positive. -/
def sched_is_ipls_ready (interval_mins : Nat) (s : IplsState) (t : Nat) : Bool :=
  if utils_compare_time t (s.last_scheduled + interval_mins * 60) ≤ 0 then false
  else true

/-- One visit of the intermediate-playlist loop of `sched_get_next`
(src/scheduler.c:169-191) to a single intermediate with interval `I`
minutes and `num_sched_items = K`: if the intermediate is not ready
nothing happens; if it is ready and `sched_items_pending = -1` the burst
is refilled to `K` and one item is drawn (`pending--` before `break`);
if `sched_items_pending = 0` the burst is closed (`pending := -1`,
`last_scheduled := t`, `continue`, no draw); otherwise one item is drawn
and `pending` decremented.  Returns the new state and whether an item
was drawn from this intermediate. -/
def ipls_step (I K : Nat) (s : IplsState) (t : Nat) : IplsState × Bool :=
  if sched_is_ipls_ready I s t then
    if s.sched_items_pending = -1 then
      ({ s with sched_items_pending := (K : Int) - 1 }, true)
    else if s.sched_items_pending = 0 then
      ({ sched_items_pending := -1, last_scheduled := t }, false)
    else
      ({ s with sched_items_pending := s.sched_items_pending - 1 }, true)
  else (s, false)

/-- A sequence of `sched_get_next` calls at the given instants, as seen
by one intermediate playlist; returns the final state and how many items
were drawn from that intermediate. -/
def ipls_run (I K : Nat) : IplsState → List Nat → IplsState × Nat
  | s, [] => (s, 0)
  | s, t :: ts =>
    let r := ipls_step I K s t
    let rest := ipls_run I K r.1 ts
    (rest.1, (if r.2 then 1 else 0) + rest.2)

/-- Inductive invariant for the burst bound: `b` counts the completed
`last_scheduled` advances since the window opened at `t0`, `c` the items
drawn so far. -/
def ipls_inv (N I K t0 : Nat) (s : IplsState) (c : Nat) : Prop :=
  ∃ b : Nat,
    (-1 ≤ s.sched_items_pending ∧ s.sched_items_pending ≤ (K : Int)) ∧
    t0 + b * (I * 60) ≤ s.last_scheduled ∧
    (b = 0 ∨ b < N) ∧
    c ≤ b * K +
      (if 0 ≤ s.sched_items_pending then K - s.sched_items_pending.toNat else 0) ∧
    (0 ≤ s.sched_items_pending → s.sched_items_pending < (K : Int) → b + 1 < N)

/-! ## scheduler.c: item draw and source fallthrough -/

/-- A playlist entry as the scheduler's draw loop sees it: whether
`utils_is_readable_file` accepts it and whether `mldr_init_audiofile`
succeeds on it. -/
structure ItemM where
  readable : Bool
  loads : Bool
  deriving Repr, DecidableEq

/-- The playlist state that `sched_get_next_item` touches
(src/scheduler.h `struct playlist`): whether `pls_reload_if_needed`
succeeds, the cursor, the items and the shuffle flag. -/
structure PlaylistM where
  reload_ok : Bool
  curr_idx : Nat
  items : List ItemM
  shuffle : Bool
  deriving Repr, DecidableEq

/-- Index-reset step of `sched_get_next_item` (src/scheduler.c:66-74):
when `curr_idx + 1 ≥ num_items` the cursor resets to 0 and, if `shuffle`
is set, the items are re-shuffled; `reshuffled` stands for the
permutation `pls_shuffle` would produce. -/
def pls_eff_items (p : PlaylistM) (reshuffled : List ItemM) : List ItemM :=
  if p.curr_idx + 1 ≥ p.items.length then
    (if p.shuffle then reshuffled else p.items)
  else p.items

/-- The cursor from which the draw loop scans after the reset step. -/
def pls_eff_start (p : PlaylistM) : Nat :=
  if p.curr_idx + 1 ≥ p.items.length then 0 else p.curr_idx

/-- The draw loop of `sched_get_next_item` (src/scheduler.c:80-94):
starting at `base`, return the index of the first entry that is readable
and loads; unreadable entries and entries that fail to load are skipped
with a warning (non-fatal). -/
def sched_scan_items : List ItemM → Nat → Option Nat
  | [], _ => none
  | it :: rest, base =>
    if it.readable && it.loads then some base
    else sched_scan_items rest (base + 1)

/-- Model of `sched_get_next_item` (src/scheduler.c:49-97): NULL playlist
and reload failure are errors; otherwise reset/reshuffle if the list was
exhausted, then scan from the cursor; on success the cursor advances past
the chosen item. -/
def sched_get_next_item (pls : Option PlaylistM) (reshuffled : List ItemM) :
    Option (Nat × PlaylistM) :=
  match pls with
  | none => none
  | some p =>
    if p.reload_ok = false then none
    else
      match sched_scan_items ((pls_eff_items p reshuffled).drop (pls_eff_start p))
          (pls_eff_start p) with
      | some idx =>
        some (idx, { p with curr_idx := idx + 1,
                            items := pls_eff_items p reshuffled })
      | none => none

/-- Which source `sched_get_next` drew from. -/
inductive SchedSource
  | ipls
  | main
  | fallback
  deriving Repr, DecidableEq

/-- The source fallthrough of `sched_get_next` (src/scheduler.c:193-224):
first the intermediate playlist chosen by the ipls loop (if any), then
the zone's main playlist, then the fallback playlist; the call fails
(returns -1, "could not find anything to schedule") only when all three
attempts fail.  `ip` is `none` when no intermediate was chosen. -/
def sched_get_next_sources (ip : Option PlaylistM) (mn fb : PlaylistM)
    (r1 r2 r3 : List ItemM) : Option (SchedSource × Nat) :=
  match sched_get_next_item ip r1 with
  | some (idx, _) => some (SchedSource.ipls, idx)
  | none =>
    match sched_get_next_item (some mn) r2 with
    | some (idx, _) => some (SchedSource.main, idx)
    | none =>
      match sched_get_next_item (some fb) r3 with
      | some (idx, _) => some (SchedSource.fallback, idx)
      | none => none

/-- A playlist can yield an item: its reload succeeds and some entry at
or after the effective cursor is readable and loadable. -/
def pls_has_playable (p : PlaylistM) (reshuffled : List ItemM) : Prop :=
  p.reload_ok = true ∧
  ∃ it ∈ (pls_eff_items p reshuffled).drop (pls_eff_start p),
    it.readable = true ∧ it.loads = true

/-! ## pls_handler.c: shuffler -/

/-- The slot-filling loop of `pls_shuffle` (src/pls_handler.c:150-159):
`temp` is the freshly allocated all-NULL array of `num_items = temp.length`
slots, `pending` the input items still to place (the C code walks them
with `items_idx`), `rands` the stream of `utils_get_random_uint()` draws.
Each round picks slot `r % num_items`; a taken slot retries with the next
random number, an empty slot receives the next item.  The loop ends when
`remaining` hits 0; running out of random numbers (which the C side never
does) yields `none`. -/
def pls_shuffle_loop : List Nat → List (Option String) → List String →
    Option (List (Option String))
  | _, temp, [] => some temp
  | [], _, _ :: _ => none
  | r :: rs, temp, x :: xs =>
    let temp_idx := r % temp.length
    if (temp.getD temp_idx none).isSome then pls_shuffle_loop rs temp (x :: xs)
    else pls_shuffle_loop rs (temp.set temp_idx (some x)) xs

/-- Model of `pls_shuffle` (src/pls_handler.c:128-171): fill an all-NULL
array of the same size slot by slot, then replace `pls->items` with it.
The resulting array (all slots non-NULL on termination) is read back as
the list of its entries. -/
def pls_shuffle (rands : List Nat) (items : List String) : Option (List String) :=
  match pls_shuffle_loop rands (List.replicate items.length none) items with
  | some temp => some (temp.filterMap id)
  | none => none

/-! ## pls_handler.c: playlist file processing -/

/-- Model of `pls_check_type` (src/pls_handler.c:38-55): `ext` points at
the last three characters of the path and `strncmp(ext, "pls", 4)`
includes the terminator, so the check is "the path ends in pls"
(respectively m3u); an unknown extension yields -1 (`TYPE_PLS = 1`,
`TYPE_M3U = 2`). -/
def pls_check_type (filepath : String) : Int :=
  if ("pls".toList.isSuffixOf filepath.toList) then 1
  else if ("m3u".toList.isSuffixOf filepath.toList) then 2
  else -1

/-- The `delim = strchr(line, '='); delim++` step of the `.pls` branch
(src/pls_handler.c:244-245): the text after the first `=` (a line
without `=` is undefined behaviour in C; modelled as the empty rest). -/
def after_first_eq : List Char → List Char
  | [] => []
  | c :: cs => if c = '=' then cs else after_first_eq cs

/-- The `.pls` parsing loop of `pls_process` (src/pls_handler.c:239-252):
lines not starting with `File` are skipped; for the others,
`pls_add_file` (src/pls_handler.c:71-121) keeps the entry only when
`utils_is_readable_file` accepts it (skipping is non-fatal and returns
0); allocations are modelled as succeeding.  The accumulator is the
C `ret` variable and the number of collected items. -/
def pls_parse_pls_lines (readable : String → Bool) :
    List String → Int → Nat → Int × Nat
  | [], ret, cnt => (ret, cnt)
  | line :: rest, ret, cnt =>
    if ("File".toList.isPrefixOf line.toList) then
      pls_parse_pls_lines readable rest 0
        (cnt + (if readable (String.mk (after_first_eq line.toList)) then 1 else 0))
    else
      pls_parse_pls_lines readable rest ret cnt

/-- The `.m3u` parsing loop of `pls_process` (src/pls_handler.c:255-268):
`#`-prefixed lines are comments; every other line goes through
`pls_add_file` (which keeps it only when readable). -/
def pls_parse_m3u_lines (readable : String → Bool) :
    List String → Int → Nat → Int × Nat
  | [], ret, cnt => (ret, cnt)
  | line :: rest, ret, cnt =>
    if line.toList.head? = some '#' then
      pls_parse_m3u_lines readable rest ret cnt
    else
      pls_parse_m3u_lines readable rest 0
        (cnt + (if readable line then 1 else 0))

/-- Model of `pls_process` (src/pls_handler.c:184-297) for a playlist
file that exists and opens (the claim concerns parsed content): compute
the type (note `ret` now holds the positive type code), check the
`[playlist]` header for `.pls` (only when a first line exists), run the
parsing loop — which leaves `ret` at the *type code* when no `File`
line (resp. no non-comment line) was ever processed — then shuffle
(`pls_shuffle` returns 0 on success, with `malloc` modelled as
succeeding).  Cleanup zeroes `num_items` when `ret < 0`.  Returns the C
`(return value, num_items)` pair. -/
def pls_process (readable : String → Bool) (filepath : String)
    (lines : List String) (shuffle : Bool) : Int × Nat :=
  let t := pls_check_type filepath
  if t < 0 then (-1, 0)
  else
    let parsed :=
      if t = 1 then
        match lines with
        | [] => (t, 0)
        | hdr :: rest =>
          if hdr = "[playlist]" then pls_parse_pls_lines readable rest t 0
          else (-1, 0)
      else pls_parse_m3u_lines readable lines t 0
    if parsed.1 < 0 then (parsed.1, 0)
    else if shuffle then (0, parsed.2)
    else (parsed.1, parsed.2)

/-! ## cfg_handler.c: fader parsing -/

/-- A parsed `Fader` config element (src/scheduler.h via cfg_handler.c). -/
structure FaderCfg where
  fadein_duration_secs : Int
  fadeout_duration_secs : Int
  deriving Repr, DecidableEq

/-- Sanity-check stage of `cfg_get_fader` (src/cfg_handler.c:185-207),
given the two parsed durations: the C code drops the fader (returns NULL,
non-fatally) when `!fdr->fadein_duration_secs || !fdr->fadeout_duration_secs`,
i.e. when either duration equals zero; otherwise the fader is returned
and attached to the playlist. -/
def cfg_get_fader (fadein fadeout : Int) : Option FaderCfg :=
  if fadein = 0 ∨ fadeout = 0 then none
  else some ⟨fadein, fadeout⟩

/-! ## fsp_player.c: replay gain -/

/-- Model of `fsp_replaygain_setup` (src/fsp_player.c:55-77) over `ℚ`.
`pow_gain` stands for the transcendental `powf(10.0f, track_gain / 20.0f)`
computed by the C code when `track_gain` is nonzero; the rest of the
control flow (unity defaults for missing tags, peak-reciprocal limit,
clamping) is translated directly.  Returns `(replay_gain, gain_limit)`
as left in `struct fsp_replaygain_state`. -/
def fsp_replaygain_setup (pow_gain track_gain track_peak : ℚ) : ℚ × ℚ :=
  let replay_gain : ℚ := if track_gain ≠ 0 then pow_gain else 1
  let gain_limit : ℚ := if track_peak ≠ 0 then 1 / track_peak else 1
  let replay_gain := if replay_gain > gain_limit then gain_limit else replay_gain
  (replay_gain, gain_limit)

/-! ## fsp_player.c: state machine of the output callback -/

/-- The player states of `enum fsp_state` (src/fsp_player.h:32-40). -/
inductive FspState where
  | stopped
  | playing
  | pausing
  | paused
  | resuming
  | stopping
  | error
  deriving Repr, DecidableEq

/-- `struct fsp_state_fader_state` (src/fsp_player.h:62-68), gains over
`ℚ`. -/
structure StateFaderM where
  state_fade_slope : ℚ
  state_fade_samples_tot : Nat
  state_fade_samples_out : Nat
  state_fade_active : Bool
  state_fade_gain : ℚ
  deriving Repr, DecidableEq

/-- Model of `fsp_state_fader_setup` (src/fsp_player.c:100-107):
2 seconds at 48 kHz. -/
def fsp_state_fader_setup : StateFaderM :=
  { state_fade_slope := 1 / (48000 * 2)
  , state_fade_samples_tot := 48000 * 2
  , state_fade_samples_out := 0
  , state_fade_active := false
  , state_fade_gain := 1 }

/-- Model of `fsp_fader_state_fade_start` (src/fsp_player.c:109-114). -/
def fsp_fader_state_fade_start (f : StateFaderM) (fade_in : Bool) : StateFaderM :=
  { f with state_fade_samples_out := 0
         , state_fade_active := true
         , state_fade_gain := if fade_in then 0 else 1 }

/-- Model of `fsp_fader_state_fade_step` (src/fsp_player.c:116-143): an
inactive fader returns the current gain unchanged; an active fader whose
position has reached the total completes (deactivates, snaps the gain to
its endpoint); otherwise the gain is recomputed from the position
(fade-in) or the remaining samples (fade-out) and the position advances
by `frames`.  Returns the updated fader and the gain the C function
returns. -/
def fsp_fader_state_fade_step (f : StateFaderM) (frames : Nat) (fade_in : Bool) :
    StateFaderM × ℚ :=
  if f.state_fade_active = false then (f, f.state_fade_gain)
  else if f.state_fade_samples_tot ≤ f.state_fade_samples_out then
    ({ f with state_fade_active := false
            , state_fade_gain := if fade_in then 1 else 0 },
      if fade_in then 1 else 0)
  else
    let remaining := f.state_fade_samples_tot - f.state_fade_samples_out
    let g : ℚ := if fade_in then (f.state_fade_samples_out : ℚ) * f.state_fade_slope
                 else (remaining : ℚ) * f.state_fade_slope
    ({ f with state_fade_gain := g
            , state_fade_samples_out := f.state_fade_samples_out + frames }, g)

/-- What the output callback wrote into the sink buffer. -/
inductive EmitKind where
  | skipped
  | silence
  | pcm (state_fade_gain : Option ℚ)
  deriving Repr, DecidableEq

/-- Model of `fsp_on_process` (src/fsp_player.c:811-905).  `bok` is
whether `pw_stream_dequeue_buffer` returned a buffer, `dok` whether its
data pointer is non-NULL, `rok` whether the ring buffer holds at least
`bytes_to_write`.  On `Stopping` the callback calls `fsp_stop`, which
returns immediately because the state is already `FSP_STATE_STOPPING`
(src/fsp_player.c:1013-1015), so nothing changes.  `Paused`/`Stopped`
emit silence and return.  A `Pausing`/`Resuming` state with an idle
fader starts the state fade (out resp. in) before the data check; with
data available the active fade is stepped (`fade_in` iff the state is
`Resuming`) and, exactly when that step completes the fade, `Pausing`
flips to `Paused` and `Resuming` flips to `Playing`.  Returns the new
state, the new fader and what was emitted. -/
def fsp_on_process (st : FspState) (fd : StateFaderM)
    (bok dok rok : Bool) (n_frames : Nat) :
    FspState × StateFaderM × EmitKind :=
  if st = FspState.stopping then (st, fd, EmitKind.skipped)
  else if bok = false then (st, fd, EmitKind.skipped)
  else if dok = false then (st, fd, EmitKind.skipped)
  else if st = FspState.paused ∨ st = FspState.stopped then
    (st, fd, EmitKind.silence)
  else
    let fd1 :=
      if st = FspState.pausing ∧ fd.state_fade_active = false then
        fsp_fader_state_fade_start fd false
      else if st = FspState.resuming ∧ fd.state_fade_active = false then
        fsp_fader_state_fade_start fd true
      else fd
    if rok = false then (st, fd1, EmitKind.silence)
    else if fd1.state_fade_active then
      let r := fsp_fader_state_fade_step fd1 n_frames (decide (st = FspState.resuming))
      if r.1.state_fade_active = false then
        if st = FspState.pausing then
          (FspState.paused, r.1, EmitKind.pcm (some r.2))
        else if st = FspState.resuming then
          (FspState.playing, r.1, EmitKind.pcm (some r.2))
        else (st, r.1, EmitKind.pcm (some r.2))
      else (st, r.1, EmitKind.pcm (some r.2))
    else (st, fd1, EmitKind.pcm none)

/-! ## fsp_player.c: decoder-thread playback consistency check -/

/-- Position of `total_samples` among the two trailing `size_t` members of
`struct fsp_audiofile_ctx` (src/fsp_player.h:80-81): it is declared first. -/
def fsp_total_samples_member_idx : Int := 0

/-- Position of `samples_played` in `struct fsp_audiofile_ctx`
(src/fsp_player.h:80-81): declared right after `total_samples`. -/
def fsp_samples_played_member_idx : Int := 1

/-- Model of the `diff` computed by `fsp_decoder_thread`
(src/fsp_player.c:651).  The C expression is
`&player->current.total_samples - &player->current.samples_played`:
a pointer subtraction between the ADDRESSES of the two adjacent `size_t`
members, whose value is the constant member-offset difference (in
elements) and does not read either counter.  The counters are kept as
(ignored) arguments to expose that independence. -/
def fsp_playback_diff (_total_samples _samples_played : Nat) : Int :=
  fsp_total_samples_member_idx - fsp_samples_played_member_idx

/-- The warning condition `abs(diff) > 100` of src/fsp_player.c:652. -/
def fsp_inconsistency_warning (total_samples samples_played : Nat) : Bool :=
  decide (100 < (fsp_playback_diff total_samples samples_played).natAbs)

end AudioSched

namespace AudioSched

/-! ## Lemmas about the zone scan -/

theorem utils_compare_time_pos_iff (a b : Nat) :
    0 < utils_compare_time a b ↔ b < a := by
  unfold utils_compare_time
  split_ifs <;> omega

theorem sched_zone_scan_some (starts : List Nat) (target : Nat) :
    ∀ k i, sched_zone_scan starts target k = some i →
      i ≤ k ∧ starts.getD i 0 < target ∧
      ∀ j, i < j → j ≤ k → ¬ starts.getD j 0 < target := by
  intro k
  induction k with
  | zero =>
    intro i h
    unfold sched_zone_scan at h
    split_ifs at h with hc
    cases h
    refine ⟨Nat.le_refl 0, (utils_compare_time_pos_iff _ _).1 hc, ?_⟩
    intro j hj hj0
    omega
  | succ k ih =>
    intro i h
    unfold sched_zone_scan at h
    split_ifs at h with hc
    · cases h
      refine ⟨Nat.le_refl _, (utils_compare_time_pos_iff _ _).1 hc, ?_⟩
      intro j hj hj'
      omega
    · obtain ⟨hik, hlt, hmax⟩ := ih i h
      refine ⟨Nat.le_succ_of_le hik, hlt, ?_⟩
      intro j hj hj'
      rcases (by omega : j ≤ k ∨ j = k + 1) with hj'' | hj''
      · exact hmax j hj hj''
      · subst hj''
        intro hcon
        exact hc ((utils_compare_time_pos_iff _ _).2 hcon)

theorem sched_zone_scan_none (starts : List Nat) (target : Nat) :
    ∀ k, sched_zone_scan starts target k = none →
      ∀ j, j ≤ k → ¬ starts.getD j 0 < target := by
  intro k
  induction k with
  | zero =>
    intro h j hj
    unfold sched_zone_scan at h
    split_ifs at h with hc
    have hj0 : j = 0 := by omega
    subst hj0
    intro hcon
    exact hc ((utils_compare_time_pos_iff _ _).2 hcon)
  | succ k ih =>
    intro h j hj
    unfold sched_zone_scan at h
    split_ifs at h with hc
    rcases (by omega : j ≤ k ∨ j = k + 1) with hj' | hj'
    · exact ih h j hj'
    · subst hj'
      intro hcon
      exact hc ((utils_compare_time_pos_iff _ _).2 hcon)

/-! ## Theorems: C10 -/

/-- C10: for every input, `utils_is_regular_file` returns 1 (its internal
`ret` computation never reaches the return value), and consequently
`utils_is_readable_file` reduces to the `access(R_OK)` check alone. -/
theorem utils_is_regular_file_always_one :
    ∀ stat_ret : Int, ∀ s_isreg : Bool, ∀ access_ret : Int,
      utils_is_regular_file stat_ret s_isreg = 1 ∧
      utils_is_readable_file stat_ret s_isreg access_ret =
        (if access_ret < 0 then 0 else 1) := by
  intro stat_ret s_isreg access_ret
  constructor
  · rfl
  · simp [utils_is_readable_file, utils_is_regular_file]

/-! ## Lemmas about the intermediate-playlist step -/

theorem sched_is_ipls_ready_iff (I : Nat) (s : IplsState) (t : Nat) :
    sched_is_ipls_ready I s t = true ↔ s.last_scheduled + I * 60 < t := by
  unfold sched_is_ipls_ready utils_compare_time
  split_ifs <;> simp_all

theorem ipls_step_not_ready (I K : Nat) (s : IplsState) (t : Nat)
    (h : sched_is_ipls_ready I s t = false) :
    ipls_step I K s t = (s, false) := by
  unfold ipls_step
  rw [h]
  simp

theorem ipls_step_refill (I K : Nat) (s : IplsState) (t : Nat)
    (hr : sched_is_ipls_ready I s t = true) (hp : s.sched_items_pending = -1) :
    ipls_step I K s t = ({ s with sched_items_pending := (K : Int) - 1 }, true) := by
  unfold ipls_step
  rw [hr, if_pos rfl, if_pos hp]

theorem ipls_step_close (I K : Nat) (s : IplsState) (t : Nat)
    (hr : sched_is_ipls_ready I s t = true) (hp : s.sched_items_pending = 0) :
    ipls_step I K s t = (⟨-1, t⟩, false) := by
  unfold ipls_step
  rw [hr, if_pos rfl, if_neg (by rw [hp]; decide), if_pos hp]

theorem ipls_step_draw (I K : Nat) (s : IplsState) (t : Nat)
    (hr : sched_is_ipls_ready I s t = true) (hp1 : s.sched_items_pending ≠ -1)
    (hp2 : s.sched_items_pending ≠ 0) :
    ipls_step I K s t =
      ({ s with sched_items_pending := s.sched_items_pending - 1 }, true) := by
  unfold ipls_step
  rw [hr, if_pos rfl, if_neg hp1, if_neg hp2]

theorem ipls_step_preserves_inv (N I K t0 : Nat) (hI : 1 ≤ I) (hK : 1 ≤ K)
    (s : IplsState) (c t : Nat) (ht : t ≤ t0 + N * (I * 60))
    (h : ipls_inv N I K t0 s c) :
    ipls_inv N I K t0 (ipls_step I K s t).1
      (c + (if (ipls_step I K s t).2 then 1 else 0)) := by
  obtain ⟨b, hpb, hlast, hbN, hc, hburst⟩ := h
  by_cases hrdy : sched_is_ipls_ready I s t = true
  · have htgt : s.last_scheduled + I * 60 < t := (sched_is_ipls_ready_iff I s t).1 hrdy
    have hb1 : b + 1 < N := by
      have hexp : (b + 1) * (I * 60) = b * (I * 60) + I * 60 := by ring
      have hM : 0 < I * 60 := by
        have : 0 < I := hI
        omega
      have hq : (b + 1) * (I * 60) < N * (I * 60) := by omega
      exact lt_of_mul_lt_mul_right hq (Nat.zero_le _)
    by_cases hp1 : s.sched_items_pending = -1
    · rw [ipls_step_refill I K s t hrdy hp1]
      rw [hp1] at hc
      rw [if_neg (by omega : ¬ (0 : Int) ≤ -1)] at hc
      unfold ipls_inv
      dsimp only
      rw [if_pos rfl]
      refine ⟨b, ⟨by omega, by omega⟩, hlast, hbN, ?_, fun _ _ => hb1⟩
      rw [if_pos (by omega : (0 : Int) ≤ (K : Int) - 1)]
      have htn : ((K : Int) - 1).toNat = K - 1 := by omega
      rw [htn]
      omega
    · by_cases hp2 : s.sched_items_pending = 0
      · rw [ipls_step_close I K s t hrdy hp2]
        rw [hp2] at hc
        rw [if_pos (by omega : (0 : Int) ≤ 0)] at hc
        have htn0 : (0 : Int).toNat = 0 := rfl
        rw [htn0] at hc
        unfold ipls_inv
        dsimp only
        rw [if_neg (by decide : ¬ false = true)]
        refine ⟨b + 1, ⟨by omega, by omega⟩, ?_, Or.inr hb1, ?_, ?_⟩
        · have hexp : (b + 1) * (I * 60) = b * (I * 60) + I * 60 := by ring
          omega
        · rw [if_neg (by omega : ¬ (0 : Int) ≤ -1)]
          have hexp : (b + 1) * K = b * K + K := by ring
          omega
        · intro hcon
          omega
      · rw [ipls_step_draw I K s t hrdy hp1 hp2]
        have hge : 1 ≤ s.sched_items_pending := by omega
        unfold ipls_inv
        dsimp only
        rw [if_pos rfl]
        refine ⟨b, ⟨by omega, by omega⟩, hlast, hbN, ?_, fun _ _ => hb1⟩
        rw [if_pos (by omega : (0 : Int) ≤ s.sched_items_pending)] at hc
        rw [if_pos (by omega : (0 : Int) ≤ s.sched_items_pending - 1)]
        have htn : (s.sched_items_pending - 1).toNat =
            s.sched_items_pending.toNat - 1 := by omega
        have htn2 : 1 ≤ s.sched_items_pending.toNat := by omega
        have htn3 : s.sched_items_pending.toNat ≤ K := by omega
        rw [htn]
        omega
  · have hr : sched_is_ipls_ready I s t = false := by
      revert hrdy
      cases sched_is_ipls_ready I s t <;> simp
    rw [ipls_step_not_ready I K s t hr]
    unfold ipls_inv
    dsimp only
    refine ⟨b, hpb, hlast, hbN, ?_, hburst⟩
    simpa using hc

theorem ipls_run_preserves_inv (N I K t0 : Nat) (hI : 1 ≤ I) (hK : 1 ≤ K) :
    ∀ ts : List Nat, ∀ s : IplsState, ∀ c : Nat,
      (∀ t ∈ ts, t ≤ t0 + N * (I * 60)) →
      ipls_inv N I K t0 s c →
      ipls_inv N I K t0 (ipls_run I K s ts).1 (c + (ipls_run I K s ts).2) := by
  intro ts
  induction ts with
  | nil =>
    intro s c hw h
    simpa [ipls_run] using h
  | cons t ts ih =>
    intro s c hw h
    have hstep := ipls_step_preserves_inv N I K t0 hI hK s c t
      (hw t (List.mem_cons_self t ts)) h
    have hrest := ih (ipls_step I K s t).1
      (c + (if (ipls_step I K s t).2 then 1 else 0))
      (fun u hu => hw u (List.mem_cons_of_mem t hu)) hstep
    unfold ipls_run
    have hassoc :
        c + (if (ipls_step I K s t).2 then 1 else 0) +
          (ipls_run I K (ipls_step I K s t).1 ts).2 =
        c + ((if (ipls_step I K s t).2 then 1 else 0) +
          (ipls_run I K (ipls_step I K s t).1 ts).2) := by omega
    rw [← hassoc]
    exact hrest

theorem ipls_inv_count_le (N I K t0 : Nat) (s : IplsState) (c : Nat)
    (h : ipls_inv N I K t0 s c) : c ≤ N * K := by
  obtain ⟨b, hpb, hlast, hbN, hc, hburst⟩ := h
  by_cases hp : (0 : Int) ≤ s.sched_items_pending
  · by_cases hpK : s.sched_items_pending < (K : Int)
    · have hb1 := hburst hp hpK
      have h2 : (b + 1) * K ≤ N * K := Nat.mul_le_mul_right K (by omega)
      have h3 : (b + 1) * K = b * K + K := by ring
      simp only [hp, if_pos] at hc
      omega
    · have hKp : s.sched_items_pending = (K : Int) := by omega
      have htn : s.sched_items_pending.toNat = K := by omega
      simp only [hp, if_pos, htn] at hc
      rcases hbN with hb0 | hbN
      · subst hb0
        simp at hc
        omega
      · have h2 : b * K ≤ N * K := Nat.mul_le_mul_right K (by omega)
        omega
  · simp only [hp, if_neg, if_false] at hc
    rcases hbN with hb0 | hbN
    · subst hb0
      simp at hc
      omega
    · have h2 : b * K ≤ N * K := Nat.mul_le_mul_right K (by omega)
      omega

/-! ## Lemmas about the item draw -/

theorem sched_scan_items_none_iff (l : List ItemM) :
    ∀ base, sched_scan_items l base = none ↔
      ∀ it ∈ l, ¬ (it.readable = true ∧ it.loads = true) := by
  induction l with
  | nil =>
    intro base
    simp [sched_scan_items]
  | cons it rest ih =>
    intro base
    unfold sched_scan_items
    by_cases h : (it.readable && it.loads) = true
    · rw [if_pos h]
      rw [Bool.and_eq_true] at h
      simp only [List.mem_cons]
      constructor
      · intro hcon
        exact absurd hcon (by simp)
      · intro hall
        exact absurd h (hall it (Or.inl rfl))
    · rw [if_neg h]
      rw [ih (base + 1)]
      rw [Bool.and_eq_true] at h
      simp only [List.mem_cons]
      constructor
      · intro hall it' hmem
        rcases hmem with hmem | hmem
        · subst hmem
          exact h
        · exact hall it' hmem
      · intro hall it' hmem
        exact hall it' (Or.inr hmem)

theorem sched_get_next_item_none_iff (p : PlaylistM) (r : List ItemM) :
    sched_get_next_item (some p) r = none ↔ ¬ pls_has_playable p r := by
  unfold sched_get_next_item pls_has_playable
  dsimp only
  by_cases hrel : p.reload_ok = false
  · rw [if_pos hrel]
    simp [hrel]
  · have hrel' : p.reload_ok = true := by
      revert hrel
      cases p.reload_ok <;> simp
    rw [if_neg hrel]
    cases hscan : sched_scan_items ((pls_eff_items p r).drop (pls_eff_start p))
        (pls_eff_start p) with
    | some idx =>
      have hex : ¬ ∀ it ∈ (pls_eff_items p r).drop (pls_eff_start p),
          ¬ (it.readable = true ∧ it.loads = true) := by
        rw [← sched_scan_items_none_iff _ (pls_eff_start p)]
        rw [hscan]
        simp
      push_neg at hex
      obtain ⟨it, hmem, hread, hload⟩ := hex
      simp only [hrel', true_and]
      constructor
      · intro hcon
        exact absurd hcon (by simp)
      · intro hno
        exact absurd ⟨it, hmem, hread, hload⟩ hno
    | none =>
      have hall := (sched_scan_items_none_iff _ (pls_eff_start p)).1 hscan
      simp only [hrel', true_and]
      constructor
      · intro _ hcon
        obtain ⟨it, hmem, hread, hload⟩ := hcon
        exact hall it hmem ⟨hread, hload⟩
      · intro _
        trivial

/-! ## Theorems: C2 -/

/-- C2: `pls_process` does NOT return a negative result on a playlist
from which zero readable entries are collected.  A syntactically valid
but empty `.pls` file (header only, or no lines at all) leaves `ret` at
the leftover positive type code and returns `(1, 0)`; an empty `.m3u`
returns `(2, 0)`; a `.pls` whose only entry is unreadable returns
`(0, 0)`.  In each case the result is nonnegative, so `cfg_get_pls`
(src/cfg_handler.c:277-283) accepts the empty playlist instead of
failing. -/
theorem pls_process_empty_not_fatal :
    pls_process (fun _ => false) "jingles.pls" ["[playlist]"] false = (1, 0) ∧
    pls_process (fun _ => false) "jingles.pls" [] false = (1, 0) ∧
    pls_process (fun _ => false) "songs.m3u" [] false = (2, 0) ∧
    pls_process (fun _ => false) "jingles.pls"
      ["[playlist]", "File1=/nope.ogg"] false = (0, 0) ∧
    ¬ ((1 : Int) < 0) ∧ ¬ ((0 : Int) < 0) ∧ ¬ ((2 : Int) < 0) := by
  refine ⟨by decide, by decide, by decide, by decide, by decide, by decide, by decide⟩

/-! ## Theorems: C4 -/

/-- C4: `sched_get_next` returns an error exactly when all three
candidate sources fail for the selected zone — the chosen intermediate
playlist (when one was chosen), the main playlist and the fallback
playlist; whenever any of them can yield an item the call succeeds, with
per-file failures (unreadable or unloadable entries) and per-playlist
failures (reload errors) falling through to the next candidate. -/
theorem sched_get_next_error_iff_all_fail (ip : Option PlaylistM)
    (mn fb : PlaylistM) (r1 r2 r3 : List ItemM) :
    sched_get_next_sources ip mn fb r1 r2 r3 = none ↔
      ((∀ p, ip = some p → ¬ pls_has_playable p r1) ∧
       ¬ pls_has_playable mn r2 ∧ ¬ pls_has_playable fb r3) := by
  unfold sched_get_next_sources
  cases hip : sched_get_next_item ip r1 with
  | some v =>
    obtain ⟨idx, p'⟩ := v
    constructor
    · intro hcon
      exact absurd hcon (by simp)
    · intro hcon
      obtain ⟨hipfail, _, _⟩ := hcon
      cases hipv : ip with
      | none =>
        rw [hipv] at hip
        simp [sched_get_next_item] at hip
      | some p =>
        rw [hipv] at hip
        have hnone := (sched_get_next_item_none_iff p r1).2 (hipfail p hipv)
        rw [hnone] at hip
        exact absurd hip (by simp)
  | none =>
    have hipfail : ∀ p, ip = some p → ¬ pls_has_playable p r1 := by
      intro p hp
      rw [hp] at hip
      exact (sched_get_next_item_none_iff p r1).1 hip
    cases hmn : sched_get_next_item (some mn) r2 with
    | some v =>
      obtain ⟨idx, p'⟩ := v
      have hmn' : ¬ ¬ pls_has_playable mn r2 := by
        intro hno
        rw [(sched_get_next_item_none_iff mn r2).2 hno] at hmn
        exact absurd hmn (by simp)
      constructor
      · intro hcon
        exact absurd hcon (by simp)
      · intro hcon
        exact absurd hcon.2.1 hmn'
    | none =>
      have hmn' := (sched_get_next_item_none_iff mn r2).1 hmn
      cases hfb : sched_get_next_item (some fb) r3 with
      | some v =>
        obtain ⟨idx, p'⟩ := v
        have hfb' : ¬ ¬ pls_has_playable fb r3 := by
          intro hno
          rw [(sched_get_next_item_none_iff fb r3).2 hno] at hfb
          exact absurd hfb (by simp)
        constructor
        · intro hcon
          exact absurd hcon (by simp)
        · intro hcon
          exact absurd hcon.2.2 hfb'
      | none =>
        have hfb' := (sched_get_next_item_none_iff fb r3).1 hfb
        constructor
        · intro _
          exact ⟨hipfail, hmn', hfb'⟩
        · intro _
          rfl

/-! ## Lemmas about the shuffler -/

theorem pls_shuffle_loop_nil_pending (rands : List Nat)
    (temp : List (Option String)) :
    pls_shuffle_loop rands temp [] = some temp := by
  cases rands <;> rfl

theorem pls_shuffle_loop_cons (r : Nat) (rs : List Nat)
    (temp : List (Option String)) (x : String) (xs : List String) :
    pls_shuffle_loop (r :: rs) temp (x :: xs) =
      if (temp.getD (r % temp.length) none).isSome then
        pls_shuffle_loop rs temp (x :: xs)
      else
        pls_shuffle_loop rs (temp.set (r % temp.length) (some x)) xs := rfl

theorem filterMap_set_some_of_none (temp : List (Option String)) :
    ∀ i : Nat, ∀ x : String, i < temp.length → temp.getD i none = none →
      List.Perm ((temp.set i (some x)).filterMap id) (x :: temp.filterMap id) := by
  induction temp with
  | nil =>
    intro i x hi _
    simp at hi
  | cons a l ih =>
    intro i x hi hnone
    cases i with
    | zero =>
      have ha : a = none := by simpa using hnone
      subst ha
      simp [List.filterMap_cons]
    | succ i =>
      have hi' : i < l.length := by simpa using hi
      have hnone' : l.getD i none = none := by simpa using hnone
      have hperm := ih i x hi' hnone'
      cases a with
      | none =>
        simpa [List.filterMap_cons] using hperm
      | some y =>
        simp only [List.set_cons_succ, List.filterMap_cons, id]
        exact (hperm.cons y).trans (List.Perm.swap x y (l.filterMap id))

theorem pls_shuffle_loop_perm :
    ∀ rands : List Nat, ∀ temp : List (Option String), ∀ pending : List String,
      ∀ out : List (Option String),
      (pending = [] ∨ 0 < temp.length) →
      pls_shuffle_loop rands temp pending = some out →
      List.Perm (out.filterMap id) (temp.filterMap id ++ pending) := by
  intro rands
  induction rands with
  | nil =>
    intro temp pending out hpre h
    cases pending with
    | nil =>
      rw [pls_shuffle_loop_nil_pending] at h
      cases h
      simp
    | cons x xs =>
      exact absurd h (by simp [pls_shuffle_loop])
  | cons r rs ih =>
    intro temp pending out hpre h
    cases pending with
    | nil =>
      rw [pls_shuffle_loop_nil_pending] at h
      cases h
      simp
    | cons x xs =>
      have hlen : 0 < temp.length := by
        rcases hpre with hpre | hpre
        · exact absurd hpre (by simp)
        · exact hpre
      rw [pls_shuffle_loop_cons] at h
      by_cases htaken : (temp.getD (r % temp.length) none).isSome = true
      · rw [if_pos htaken] at h
        exact ih temp (x :: xs) out (Or.inr hlen) h
      · rw [if_neg htaken] at h
        have hlt : r % temp.length < temp.length := Nat.mod_lt _ hlen
        have hnone : temp.getD (r % temp.length) none = none := by
          cases hgd : temp.getD (r % temp.length) none with
          | none => rfl
          | some y =>
            rw [hgd] at htaken
            simp at htaken
        have hins := filterMap_set_some_of_none temp (r % temp.length) x hlt hnone
        have hih := ih (temp.set (r % temp.length) (some x)) xs out
          (by cases xs <;> simp [hlen]) h
        refine hih.trans ?_
        refine (hins.append_right xs).trans ?_
        exact List.perm_middle.symm

theorem filterMap_id_replicate_none (n : Nat) :
    (List.replicate n (none : Option String)).filterMap id = [] := by
  induction n with
  | zero => rfl
  | succ n ih => simp [List.replicate_succ, List.filterMap_cons, ih]

/-! ## Theorems: C9 -/

/-- C9: whenever the shuffle loop of `pls_shuffle` terminates, the
resulting items array is a permutation (same multiset) of the input
array, and a one-entry playlist shuffles to itself on the very first
random draw. -/
theorem pls_shuffle_is_perm :
    (∀ rands items out, pls_shuffle rands items = some out →
      List.Perm out items) ∧
    (∀ r : Nat, ∀ rs : List Nat, ∀ x : String,
      pls_shuffle (r :: rs) [x] = some [x]) := by
  constructor
  · intro rands items out h
    unfold pls_shuffle at h
    cases hloop : pls_shuffle_loop rands (List.replicate items.length none) items with
    | none =>
      rw [hloop] at h
      simp at h
    | some temp =>
      rw [hloop] at h
      cases h
      have hpre : items = [] ∨ 0 < (List.replicate items.length
          (none : Option String)).length := by
        cases items with
        | nil => exact Or.inl rfl
        | cons a l => right; simp
      have hperm := pls_shuffle_loop_perm rands _ items temp hpre hloop
      rw [filterMap_id_replicate_none] at hperm
      simpa using hperm
  · intro r rs x
    unfold pls_shuffle
    have h1 : List.replicate ([x] : List String).length (none : Option String) =
        [none] := rfl
    rw [h1, pls_shuffle_loop_cons]
    have h2 : r % ([none] : List (Option String)).length = 0 := by
      simp [Nat.mod_one]
    rw [h2]
    rw [if_neg (by simp)]
    rw [show ([none] : List (Option String)).set 0 (some x) = [some x] from rfl]
    rw [pls_shuffle_loop_nil_pending]
    rfl

/-- C9 witness: the permutation theorem applied to the concrete shuffle
of a two-entry playlist with random draws 1 then 0, and the singleton
case at a concrete draw. -/
theorem pls_shuffle_is_perm_witness :
    List.Perm ["b", "a"] ["a", "b"] ∧
    pls_shuffle [1, 0] ["a", "b"] = some ["b", "a"] ∧
    pls_shuffle [7] ["x"] = some ["x"] :=
  ⟨pls_shuffle_is_perm.1 [1, 0] ["a", "b"] ["b", "a"] (by rfl), by rfl,
    pls_shuffle_is_perm.2 7 [] "x"⟩

/-! ## Theorems: C3 -/

/-- C3: for an intermediate playlist with interval `I ≥ 1` minutes and
burst size `K ≥ 1`, starting armed (`sched_items_pending = -1`) with
`last_scheduled = t0`: any sequence of scheduler calls whose instants lie
in the window of `N·I` minutes starting at `t0` draws at most `N·K` items
from that intermediate; an item is drawn by a step only when the target
instant is strictly later than `last_scheduled` plus `I` minutes; a step
keeps the pending count in `{-1} ∪ [0, K]`; and when a burst completes
(`pending = 0` while ready) the step advances `last_scheduled` to the
target instant and re-arms the counter. -/
theorem sched_ipls_burst_bound (I K N t0 : Nat) (s : IplsState) (t : Nat)
    (ts : List Nat) (hI : 1 ≤ I) (hK : 1 ≤ K)
    (hw : ∀ u ∈ ts, u ≤ t0 + N * (I * 60))
    (hs : -1 ≤ s.sched_items_pending ∧ s.sched_items_pending ≤ (K : Int)) :
    (ipls_run I K ⟨-1, t0⟩ ts).2 ≤ N * K ∧
    ((ipls_step I K s t).2 = true → s.last_scheduled + I * 60 < t) ∧
    (-1 ≤ (ipls_step I K s t).1.sched_items_pending ∧
      (ipls_step I K s t).1.sched_items_pending ≤ (K : Int)) ∧
    (sched_is_ipls_ready I s t = true → s.sched_items_pending = 0 →
      (ipls_step I K s t).1.last_scheduled = t ∧
      (ipls_step I K s t).1.sched_items_pending = -1) := by
  refine ⟨?_, ?_, ?_, ?_⟩
  · have hinit : ipls_inv N I K t0 ⟨-1, t0⟩ 0 := by
      unfold ipls_inv
      dsimp only
      refine ⟨0, ⟨by omega, by omega⟩, by omega, Or.inl rfl, ?_, ?_⟩
      · rw [if_neg (by omega : ¬ (0 : Int) ≤ -1)]
        omega
      · intro hcon
        omega
    have hrun := ipls_run_preserves_inv N I K t0 hI hK ts ⟨-1, t0⟩ 0 hw hinit
    have := ipls_inv_count_le N I K t0 (ipls_run I K ⟨-1, t0⟩ ts).1
      (0 + (ipls_run I K ⟨-1, t0⟩ ts).2) hrun
    omega
  · intro hdrew
    by_cases hrdy : sched_is_ipls_ready I s t = true
    · exact (sched_is_ipls_ready_iff I s t).1 hrdy
    · have hr : sched_is_ipls_ready I s t = false := by
        revert hrdy
        cases sched_is_ipls_ready I s t <;> simp
      rw [ipls_step_not_ready I K s t hr] at hdrew
      simp at hdrew
  · by_cases hrdy : sched_is_ipls_ready I s t = true
    · by_cases hp1 : s.sched_items_pending = -1
      · rw [ipls_step_refill I K s t hrdy hp1]
        dsimp only
        omega
      · by_cases hp2 : s.sched_items_pending = 0
        · rw [ipls_step_close I K s t hrdy hp2]
          dsimp only
          omega
        · rw [ipls_step_draw I K s t hrdy hp1 hp2]
          dsimp only
          omega
    · have hr : sched_is_ipls_ready I s t = false := by
        revert hrdy
        cases sched_is_ipls_ready I s t <;> simp
      rw [ipls_step_not_ready I K s t hr]
      exact hs
  · intro hrdy hp2
    rw [ipls_step_close I K s t hrdy hp2]
    exact ⟨rfl, rfl⟩

/-- C3 witness: interval 10 minutes, burst size 3, armed at `t0 = 0`;
calls at 601 s, 602 s, 603 s and 604 s (all inside the 2-interval
window of 1200 s) draw the 3-item burst and close it. -/
theorem sched_ipls_burst_bound_witness :
    (ipls_run 10 3 ⟨-1, 0⟩ [601, 602, 603, 604]).2 ≤ 2 * 3 ∧
    ((ipls_step 10 3 ⟨-1, 0⟩ 601).2 = true → 0 + 10 * 60 < 601) ∧
    (-1 ≤ (ipls_step 10 3 ⟨-1, 0⟩ 601).1.sched_items_pending ∧
      (ipls_step 10 3 ⟨-1, 0⟩ 601).1.sched_items_pending ≤ (3 : Int)) ∧
    (sched_is_ipls_ready 10 ⟨-1, 0⟩ 601 = true →
      (IplsState.mk (-1) 0).sched_items_pending = 0 →
      (ipls_step 10 3 ⟨-1, 0⟩ 601).1.last_scheduled = 601 ∧
      (ipls_step 10 3 ⟨-1, 0⟩ 601).1.sched_items_pending = -1) := by
  have h := sched_ipls_burst_bound 10 3 2 0 ⟨-1, 0⟩ 601 [601, 602, 603, 604]
    (by decide) (by decide) (by decide) (by decide)
  simpa using h

/-! ## Theorems: C8 -/

set_option maxHeartbeats 1000000

/-- C8: the output callback performs no state transitions other than
`Pausing → Paused` and `Resuming → Playing`; given the setup invariant
`state_fade_samples_tot = 96000` (2 s at 48 kHz), a `Pausing` player
flips to `Paused` exactly when a buffer and data are available, the ring
has enough bytes, and the active state fade has already emitted the full
96000 samples (i.e. the step completes the fade-out), and symmetrically
`Resuming` flips to `Playing` exactly on fade-in completion; a `Paused`
or `Stopped` player (with a usable buffer) emits silence and keeps both
its state and its fader unchanged. -/
theorem fsp_on_process_state_transitions (st : FspState) (fd : StateFaderM)
    (bok dok rok : Bool) (n_frames : Nat)
    (htot : fd.state_fade_samples_tot = 96000) :
    ((fsp_on_process st fd bok dok rok n_frames).1 = st ∨
      (st = FspState.pausing ∧
        (fsp_on_process st fd bok dok rok n_frames).1 = FspState.paused) ∨
      (st = FspState.resuming ∧
        (fsp_on_process st fd bok dok rok n_frames).1 = FspState.playing)) ∧
    (st = FspState.pausing →
      ((fsp_on_process st fd bok dok rok n_frames).1 = FspState.paused ↔
        bok = true ∧ dok = true ∧ rok = true ∧ fd.state_fade_active = true ∧
          96000 ≤ fd.state_fade_samples_out)) ∧
    (st = FspState.resuming →
      ((fsp_on_process st fd bok dok rok n_frames).1 = FspState.playing ↔
        bok = true ∧ dok = true ∧ rok = true ∧ fd.state_fade_active = true ∧
          96000 ≤ fd.state_fade_samples_out)) ∧
    ((st = FspState.paused ∨ st = FspState.stopped) → bok = true → dok = true →
      (fsp_on_process st fd bok dok rok n_frames).1 = st ∧
      (fsp_on_process st fd bok dok rok n_frames).2.1 = fd ∧
      (fsp_on_process st fd bok dok rok n_frames).2.2 = EmitKind.silence) := by
  cases st <;> cases bok <;> cases dok <;> cases rok <;>
    cases hact : fd.state_fade_active <;>
    simp_all [fsp_on_process, fsp_fader_state_fade_start, fsp_fader_state_fade_step] <;>
    split_ifs <;> simp_all

/-- C8 witness: a `Pausing` player whose active fade-out has already
covered the full 96000 samples, with buffer, data and ring available. -/
theorem fsp_on_process_state_transitions_witness :
    ((fsp_on_process FspState.pausing ⟨1/96000, 96000, 96000, true, 1⟩
        true true true 1024).1 = FspState.pausing ∨
      (FspState.pausing = FspState.pausing ∧
        (fsp_on_process FspState.pausing ⟨1/96000, 96000, 96000, true, 1⟩
          true true true 1024).1 = FspState.paused) ∨
      (FspState.pausing = FspState.resuming ∧
        (fsp_on_process FspState.pausing ⟨1/96000, 96000, 96000, true, 1⟩
          true true true 1024).1 = FspState.playing)) ∧
    (FspState.pausing = FspState.pausing →
      ((fsp_on_process FspState.pausing ⟨1/96000, 96000, 96000, true, 1⟩
          true true true 1024).1 = FspState.paused ↔
        true = true ∧ true = true ∧ true = true ∧
          (⟨1/96000, 96000, 96000, true, 1⟩ : StateFaderM).state_fade_active = true ∧
          96000 ≤ (⟨1/96000, 96000, 96000, true, 1⟩ : StateFaderM).state_fade_samples_out)) ∧
    (FspState.pausing = FspState.resuming →
      ((fsp_on_process FspState.pausing ⟨1/96000, 96000, 96000, true, 1⟩
          true true true 1024).1 = FspState.playing ↔
        true = true ∧ true = true ∧ true = true ∧
          (⟨1/96000, 96000, 96000, true, 1⟩ : StateFaderM).state_fade_active = true ∧
          96000 ≤ (⟨1/96000, 96000, 96000, true, 1⟩ : StateFaderM).state_fade_samples_out)) ∧
    ((FspState.pausing = FspState.paused ∨ FspState.pausing = FspState.stopped) →
      true = true → true = true →
      (fsp_on_process FspState.pausing ⟨1/96000, 96000, 96000, true, 1⟩
        true true true 1024).1 = FspState.pausing ∧
      (fsp_on_process FspState.pausing ⟨1/96000, 96000, 96000, true, 1⟩
        true true true 1024).2.1 = (⟨1/96000, 96000, 96000, true, 1⟩ : StateFaderM) ∧
      (fsp_on_process FspState.pausing ⟨1/96000, 96000, 96000, true, 1⟩
        true true true 1024).2.2 = EmitKind.silence) :=
  fsp_on_process_state_transitions FspState.pausing
    ⟨1/96000, 96000, 96000, true, 1⟩ true true true 1024 rfl

/-! ## Theorems: C5 -/

/-- C5: because line 651 of fsp_player.c subtracts member *addresses*
instead of the counters' values, the inconsistent-playback warning
condition is the constant `|0 - 1| > 100` and never fires — in particular
it stays silent at a file whose `total_samples` and `samples_played`
differ by 96000 samples, where the claim requires a warning. -/
theorem fsp_inconsistency_warning_never :
    (∀ total_samples samples_played : Nat,
      fsp_inconsistency_warning total_samples samples_played = false) ∧
    fsp_inconsistency_warning 96000 0 = false ∧
    100 < ((96000 : Int) - (0 : Int)).natAbs := by
  refine ⟨fun t p => rfl, rfl, by decide⟩

/-! ## Theorems: C6 -/

/-- C6: the sanity check of `cfg_get_fader` keeps the fader only when
BOTH durations are nonzero (`!a || !b` drops it when either is zero);
the claim's "at least one positive duration suffices" fails at the
concrete input `FadeInDurationSecs = 5, FadeOutDurationSecs = 0`, which
satisfies the claim's attachment condition yet is dropped. -/
theorem cfg_get_fader_requires_both :
    (∀ a b : Int, (cfg_get_fader a b).isSome = true ↔ (a ≠ 0 ∧ b ≠ 0)) ∧
    cfg_get_fader 5 0 = none ∧ ((5 : Int) > 0 ∨ (0 : Int) > 0) := by
  refine ⟨?_, by decide, by decide⟩
  intro a b
  unfold cfg_get_fader
  split_ifs with h
  · simp only [Option.isSome_none, Bool.false_eq_true, false_iff]
    tauto
  · simp only [Option.isSome_some, true_iff]
    push_neg at h
    exact h

/-! ## Theorems: C7 -/

/-- C7: the effective linear replay gain computed by
`fsp_replaygain_setup` equals the minimum of the dB-derived linear gain
(unity when the `track_gain` tag is missing/zero) and the peak
reciprocal (unity when `track_peak` is missing/zero); the stored
`gain_limit` is exactly that reciprocal (1 when the peak is 0), and the
effective gain never exceeds the gain limit. -/
theorem fsp_replaygain_setup_min :
    ∀ pow_gain track_gain track_peak : ℚ,
      (fsp_replaygain_setup pow_gain track_gain track_peak).1 =
        min (if track_gain = 0 then 1 else pow_gain)
          (if track_peak = 0 then 1 else 1 / track_peak) ∧
      (fsp_replaygain_setup pow_gain track_gain track_peak).2 =
        (if track_peak = 0 then 1 else 1 / track_peak) ∧
      (fsp_replaygain_setup pow_gain track_gain track_peak).1 ≤
        (fsp_replaygain_setup pow_gain track_gain track_peak).2 := by
  intro p g k
  unfold fsp_replaygain_setup
  refine ⟨?_, ?_, ?_⟩
  · simp only [ne_eq, ite_not, gt_iff_lt]
    rw [min_def]
    split_ifs <;> first | rfl | linarith
  · simp only [ne_eq, ite_not]
  · simp only [ne_eq, ite_not, gt_iff_lt]
    split_ifs <;> linarith

/-! ## Theorems: C1 -/

/-- C1 counterexample: the claim says `sched_get_next` selects the latest
zone whose start is ≤ the target time-of-day (inclusive), hence a target
exactly at a zone's `Start` attributes to that zone.  With zones starting
at 00:00:00 and 12:00:00 and target 12:00:00 the inclusive rule picks
zone 1, but the code (strict `>` comparison on the reverse walk) picks
zone 0. -/
theorem sched_select_zone_not_inclusive :
    sched_select_zone [0, 43200] 43200 = 0 ∧
    spec_select_zone_incl [0, 43200] 43200 = 1 := by
  constructor <;> rfl

/-- C1 (amended): `sched_get_next` selects the latest zone whose start
time-of-day is *strictly less* than the target time-of-day; a target
exactly equal to a zone's `Start` does not attribute to that zone.  If no
zone's start is strictly below the target, the first zone of the day is
used. -/
theorem sched_select_zone_strict (starts : List Nat) (target : Nat)
    (h : starts ≠ []) :
    sched_select_zone starts target < starts.length ∧
    ((starts.getD (sched_select_zone starts target) 0 < target ∧
      ∀ j, j < starts.length → starts.getD j 0 < target →
        j ≤ sched_select_zone starts target) ∨
     (sched_select_zone starts target = 0 ∧
      ∀ j, j < starts.length → ¬ starts.getD j 0 < target)) := by
  have hlen : 1 ≤ starts.length := by
    cases starts with
    | nil => exact absurd rfl h
    | cons a l => simp
  cases hscan : sched_zone_scan starts target (starts.length - 1) with
  | some i =>
    have hsel : sched_select_zone starts target = i := by
      unfold sched_select_zone
      rw [hscan]
    obtain ⟨hik, hlt, hmax⟩ := sched_zone_scan_some starts target _ i hscan
    rw [hsel]
    constructor
    · omega
    · left
      refine ⟨hlt, ?_⟩
      intro j hj hjlt
      by_contra hcon
      push_neg at hcon
      exact hmax j hcon (by omega) hjlt
  | none =>
    have hsel : sched_select_zone starts target = 0 := by
      unfold sched_select_zone
      rw [hscan]
    have hnone := sched_zone_scan_none starts target _ hscan
    rw [hsel]
    exact ⟨by omega, Or.inr ⟨rfl, fun j hj => hnone j (by omega)⟩⟩

/-- C1 witness: the amended selection theorem applied to the concrete day
schedule with zones at 00:00:00 and 12:00:00 and target 00:01:40. -/
theorem sched_select_zone_strict_witness :
    sched_select_zone [0, 43200] 100 < ([0, 43200] : List Nat).length ∧
    ((([0, 43200] : List Nat).getD (sched_select_zone [0, 43200] 100) 0 < 100 ∧
      ∀ j, j < ([0, 43200] : List Nat).length →
        ([0, 43200] : List Nat).getD j 0 < 100 →
        j ≤ sched_select_zone [0, 43200] 100) ∨
     (sched_select_zone [0, 43200] 100 = 0 ∧
      ∀ j, j < ([0, 43200] : List Nat).length →
        ¬ ([0, 43200] : List Nat).getD j 0 < 100)) :=
  sched_select_zone_strict [0, 43200] 100 (by decide)

end AudioSched
